import Mathlib

/-!
Verification of the EDS container parser (src/eds_parser.py) of the
DataImporter repository, against its natural-language specification.

The Python code is shallowly embedded: the XML document tree produced by
xml.etree.ElementTree is an inductive type; Python dictionaries are
association lists with insert-or-replace update (modelling the
insertion-order, last-write-wins semantics of dict assignment); numeric
parsing (int(), float()) is modelled by explicit Option-valued parsers over
strings, with float values represented as rationals; the zip container is a
value that is either an invalid archive or a list of entry names together
with the outcome of XML-parsing each entry (some tree on success, none when
ET.parse would raise an exception that the top-level handler catches).

String operations are implemented over the character list of a String so
that every definition evaluates inside the kernel.
-/

namespace Eds

/-- Characters stripped by Python str.strip with no argument. -/
def isPySpace (c : Char) : Bool :=
  c = ' ' || c = '\t' || c = '\n' || c = '\r' || c = '\x0b' || c = '\x0c'

/-- Python str.strip with no argument: remove surrounding whitespace. -/
def pyStrip (s : String) : String :=
  String.mk (((s.data.dropWhile isPySpace).reverse.dropWhile isPySpace).reverse)

/-- Split a character list at every occurrence of the separator. -/
def splitOnChar (sep : Char) : List Char → List (List Char)
  | [] => [[]]
  | c :: rest =>
      if c = sep then [] :: splitOnChar sep rest
      else
        match splitOnChar sep rest with
        | [] => [[c]]
        | g :: gs => (c :: g) :: gs

/-- Python str.split with a one-character separator. -/
def strSplit (sep : Char) (s : String) : List String :=
  (splitOnChar sep s.data).map String.mk

/-- Whether the second list occurs contiguously inside the first. -/
def hasInfixList (hay needle : List Char) : Bool :=
  needle.isPrefixOf hay ||
    match hay with
    | [] => false
    | _ :: t => hasInfixList t needle

/-- Python substring containment, needle in hay. -/
def strContainsSub (hay needle : String) : Bool :=
  hasInfixList hay.data needle.data

/-- Nonempty run of ASCII decimal digits. -/
def digitsList (cs : List Char) : Bool :=
  !cs.isEmpty && cs.all (fun c => c.isDigit)

/-- Python str.isdigit restricted to ASCII digits: nonempty and all
characters decimal digits. -/
def isDigits (s : String) : Bool :=
  digitsList s.data

/-- Digit characters read as a natural number. -/
def digitsValue (cs : List Char) : Nat :=
  cs.foldl (fun acc c => 10 * acc + (c.toNat - 48)) 0

/-- Digits of a string read as a natural number. -/
def digitsToNat (s : String) : Nat :=
  digitsValue s.data

/-- Model of Python int(str): optional surrounding whitespace, an optional
single sign, then a nonempty run of decimal digits.  Returns none where
int() raises ValueError.  (Underscore digit separators, accepted by
Python, are not modelled; no claim depends on them.) -/
def pyInt (s : String) : Option Int :=
  match (pyStrip s).data with
  | '-' :: rest =>
      if digitsList rest then some (-(Int.ofNat (digitsValue rest))) else none
  | '+' :: rest =>
      if digitsList rest then some (Int.ofNat (digitsValue rest)) else none
  | cs => if digitsList cs then some (Int.ofNat (digitsValue cs)) else none

/-- Unsigned decimal literal: an integer part and/or a fractional part
separated by a dot, at least one of the two parts nonempty. -/
def decCore (u : List Char) : Option ℚ :=
  match splitOnChar '.' u with
  | [ip] => if digitsList ip then some (mkRat (digitsValue ip) 1) else none
  | [ip, fp] =>
      if (digitsList ip || ip.isEmpty) && (digitsList fp || fp.isEmpty)
          && !(ip.isEmpty && fp.isEmpty) then
        some (mkRat (digitsValue ip * 10 ^ fp.length + digitsValue fp)
          (10 ^ fp.length))
      else none
  | _ => none

/-- Model of Python float(str) on plain decimal literals: optional
surrounding whitespace, optional sign, then a decimal literal.  Returns
none where float() raises ValueError.  (Exponent notation and inf/nan
are not modelled; no claim depends on them.) -/
def pyFloat (s : String) : Option ℚ :=
  match (pyStrip s).data with
  | '-' :: rest => (decCore rest).map (fun q => -q)
  | '+' :: rest => decCore rest
  | cs => decCore cs

/-- Model of the Python expression chr(65 + row): the row letter. -/
def rowChar (row : Nat) : Char := Char.ofNat (65 + row)

/-- Model of the Python f-string field {n:02d} for a natural number:
zero-padded to at least two digits. -/
def pad2 (n : Nat) : String :=
  if n < 10 then "0" ++ Nat.repr n else Nat.repr n

/-- Well label as built at src/eds_parser.py lines 127-129:
chr(65 + row) followed by the 1-based column zero-padded to two digits. -/
def wellLabel (row col : Nat) : String :=
  String.singleton (rowChar row) ++ pad2 (col + 1)

/-! ## The XML document tree

An element carries a tag, an attribute list, its text (None in Python when
the element has no text) and its child elements, exactly the parts of the
ElementTree interface the parser touches. -/

inductive Xml where
  | elem (tag : String) (attrs : List (String × String)) (text : Option String)
      (children : List Xml)

def Xml.tag : Xml → String
  | .elem t _ _ _ => t

def Xml.attrs : Xml → List (String × String)
  | .elem _ a _ _ => a

def Xml.text : Xml → Option String
  | .elem _ _ x _ => x

def Xml.children : Xml → List Xml
  | .elem _ _ _ cs => cs

/-- Element.get(key): attribute lookup, None when absent. -/
def Xml.attr (e : Xml) (k : String) : Option String :=
  (e.attrs.find? (fun p => p.1 = k)).map (fun p => p.2)

mutual
/-- All proper descendants of an element in document order, the order in
which ElementTree iterates and in which findall with a .// path matches. -/
def Xml.descendants : Xml → List Xml
  | .elem _ _ _ cs => descendantsList cs
def descendantsList : List Xml → List Xml
  | [] => []
  | c :: cs => c :: Xml.descendants c ++ descendantsList cs
end

/-- findall with path .//tag: every descendant with the given tag. -/
def findallDesc (root : Xml) (t : String) : List Xml :=
  root.descendants.filter (fun e => e.tag = t)

/-- find with path .//tag: first descendant with the given tag. -/
def findDesc (root : Xml) (t : String) : Option Xml :=
  root.descendants.find? (fun e => e.tag = t)

/-- find with a bare tag path: first direct child with the given tag. -/
def findChild (e : Xml) (t : String) : Option Xml :=
  e.children.find? (fun c => c.tag = t)

/-- findtext on a direct-child path with default None: Python returns the
text of the first match, an empty string when the match has no text, and
None when there is no match. -/
def findtextChild (e : Xml) (t : String) : Option String :=
  (findChild e t).map (fun c => c.text.getD "")

/-- findtext on a direct-child path with a string default. -/
def findtextChildD (e : Xml) (t : String) (d : String) : String :=
  match findChild e t with
  | some c => c.text.getD ""
  | none => d

/-- findtext on a .//tag path with default None. -/
def findtextDesc (root : Xml) (t : String) : Option String :=
  (findDesc root t).map (fun c => c.text.getD "")

/-! ## Namespace stripping (src/eds_parser.py lines 70-74)

Python: for every element of element.iter() (the element itself and all
descendants), when the tag contains a closing brace, replace it by
tag.split(sep, 1)[1], everything after the first closing brace. -/

/-- Everything after the first closing brace of the character list. -/
def afterBrace (cs : List Char) : List Char :=
  (cs.dropWhile (fun c => c ≠ '}')).drop 1

/-- One tag: unchanged when it has no closing brace, otherwise the part
after the first closing brace. -/
def stripTag (t : String) : String :=
  if t.data.contains '}' then String.mk (afterBrace t.data) else t

mutual
/-- _strip_namespaces as a tree transformation: the in-place mutation of
every tag is modelled functionally. -/
def stripNs : Xml → Xml
  | .elem t a x cs => .elem (stripTag t) a x (stripNsList cs)
def stripNsList : List Xml → List Xml
  | [] => []
  | c :: cs => stripNs c :: stripNsList cs
end

/-- The tags of an element and of all its descendants. -/
def allTags (e : Xml) : List String :=
  e.tag :: e.descendants.map Xml.tag

/-! ## Data model -/

structure Metadata where
  run_name : String
  instrument_serial : Option String
  run_start_time : Option String
deriving Repr, DecidableEq

structure Sample where
  name : String
  description : Option String
deriving Repr, DecidableEq

structure Well where
  well_position : String
  sample_name : Option String
  tm_value : Option ℚ
  target_dye : String
  sample_role : String
deriving Repr, DecidableEq

structure MeltCurve where
  well_position : String
  sample_name : Option String
  temperature_data : List ℚ
  fluorescence_data : List ℚ
deriving Repr, DecidableEq

structure ParseResult where
  metadata : Metadata
  samples : List (String × Sample)
  wells : List (String × Well)
  melt_curves : List MeltCurve
deriving Repr, DecidableEq

/-! ## Python dict as an association list -/

/-- Dict lookup. -/
def alLookup {α : Type} : List (String × α) → String → Option α
  | [], _ => none
  | p :: rest, k => if p.1 = k then some p.2 else alLookup rest k

/-- Dict assignment d[k] = v: replace in place when the key exists,
append otherwise, preserving insertion order. -/
def alInsert {α : Type} : List (String × α) → String → α → List (String × α)
  | [], k, v => [(k, v)]
  | p :: rest, k, v =>
      if p.1 = k then (k, v) :: rest else p :: alInsert rest k v

/-! ## _extract_metadata (src/eds_parser.py lines 76-87) -/

def extract_metadata (root : Xml) : Metadata :=
  { run_name :=
      match findtextDesc root "Name" with
      | some s => if s = "" then "Unknown Run" else s
      | none => "Unknown Run"
    instrument_serial := findtextDesc root "InstrumentSerialNumber"
    run_start_time := findtextDesc root "RunStarted" }

/-! ## _extract_samples (src/eds_parser.py lines 89-108) -/

/-- The entry one Sample element contributes to the samples dict, none
when the Python condition "if s_id and s_name" rejects it: the ID
attribute and the Name child text must both be present and non-empty
(the empty string is falsy in Python). -/
def sampleEntry (s : Xml) : Option (String × Sample) :=
  match s.attr "ID", findtextChild s "Name" with
  | some i, some n =>
      if i ≠ "" ∧ n ≠ "" then some (i, ⟨n, findtextChild s "Description"⟩)
      else none
  | _, _ => none

/-- The loop of _extract_samples over the elements found. -/
def buildSamples : List Xml → List (String × Sample) → List (String × Sample)
  | [], m => m
  | s :: rest, m =>
      buildSamples rest
        (match sampleEntry s with
         | some (k, v) => alInsert m k v
         | none => m)

def extract_samples (root : Xml) : List (String × Sample) :=
  buildSamples (findallDesc root "Sample") []

/-! ## _extract_wells (src/eds_parser.py lines 110-164) -/

/-- Sample resolution of one Well element (lines 131-142): the first
descendant SampleRef whose ID attribute is a key of the sample dict gives
the sample name; when that leaves a falsy value (no ref, unknown ID, or
an empty name) a direct SampleName child text is used instead. -/
def resolveSampleName (m : List (String × Sample)) (w : Xml) : Option String :=
  let viaRef : Option String :=
    match findDesc w "SampleRef" with
    | none => none
    | some ref =>
        match ref.attr "ID" with
        | none => none
        | some i =>
            match alLookup m i with
            | some s => some s.name
            | none => none
  match viaRef with
  | some n => if n = "" then findtextChild w "SampleName" else some n
  | none => findtextChild w "SampleName"

/-- Tm resolution of one Well element (lines 144-153): first descendant
Tm element whose text parses as a float; float(None) raises TypeError and
float of an unparseable string raises ValueError, both caught, leaving
the value absent. -/
def wellTm (w : Xml) : Option ℚ :=
  match findDesc w "Tm" with
  | none => none
  | some e =>
      match e.text with
      | none => none
      | some s => pyFloat s

/-- The entry one Well element contributes to the wells dict (lines
116-162), none when the element is skipped: Row and Col default to "-1"
when the child is missing, a ValueError from int() skips the well, and a
negative row or column skips the well. -/
def wellEntry (m : List (String × Sample)) (w : Xml) : Option (String × Well) :=
  match pyInt (findtextChildD w "Row" "-1"), pyInt (findtextChildD w "Col" "-1") with
  | some row, some col =>
      if row < 0 ∨ col < 0 then none
      else
        let pos := wellLabel row.toNat col.toNat
        some (pos,
          { well_position := pos
            sample_name := resolveSampleName m w
            tm_value := wellTm w
            target_dye := "SYBR"
            sample_role := "Unknown" })
  | _, _ => none

/-- The loop of _extract_wells over the elements found. -/
def buildWells (m : List (String × Sample)) :
    List Xml → List (String × Well) → List (String × Well)
  | [], acc => acc
  | w :: rest, acc =>
      buildWells m rest
        (match wellEntry m w with
         | some (k, v) => alInsert acc k v
         | none => acc)

def extract_wells (root : Xml) (m : List (String × Sample)) :
    List (String × Well) :=
  buildWells m (findallDesc root "Well") []

/-! ## _extract_melt_curves (src/eds_parser.py lines 166-216) -/

/-- Membership test of the quant binary list comprehension (line 178):
f.startswith of the quant directory and f.endswith of the .bin suffix. -/
def isQuantBin (f : String) : Bool :=
  "apldbio/sds/quant/".data.isPrefixOf f.data &&
    ".bin".data.reverse.isPrefixOf f.data.reverse

/-- Whether any entry of the archive is a proprietary binary quant file
(quant_files nonempty at line 182). -/
def hasQuantFiles (entries : List String) : Bool :=
  entries.any isQuantBin

/-- _extract_melt_curves: the quant binary entries are detected and
logged but never decoded; for every well of the well dict, in insertion
order, one placeholder melt curve with empty data arrays is emitted. -/
def extract_melt_curves (entries : List String) (wellMap : List (String × Well)) :
    List MeltCurve :=
  let _quant := entries.filter isQuantBin
  wellMap.map (fun p =>
    { well_position := p.1
      sample_name := p.2.sample_name
      temperature_data := []
      fluorescence_data := [] })

/-! ## parse (src/eds_parser.py lines 19-68) -/

/-- A structurally valid zip archive: its entry names, and for each entry
the outcome of reading it and XML-parsing it (none models an ET.parse
exception, which the top-level handler catches). -/
structure ZipArchive where
  entries : List String
  xmlOf : String → Option Xml

/-- The input of parse: either not a valid zip file (zipfile.BadZipFile)
or a structurally valid archive. -/
inductive ZipFile where
  | badZip
  | ok (a : ZipArchive)

def experimentXmlPath : String := "apldbio/sds/experiment.xml"

/-- The success path of parse: namespaces stripped, then metadata,
samples, wells and melt curves assembled into the result record. -/
def assemble (a : ZipArchive) (root0 : Xml) : ParseResult :=
  let root := stripNs root0
  let ss := extract_samples root
  let ws := extract_wells root ss
  { metadata := extract_metadata root
    samples := ss
    wells := ws
    melt_curves := extract_melt_curves a.entries ws }

/-- parse: a BadZipFile and any other exception are caught and yield
None; a missing experiment.xml entry yields None; otherwise the complete
record is returned. -/
def parse (z : ZipFile) : Option ParseResult :=
  match z with
  | .badZip => none
  | .ok a =>
      if experimentXmlPath ∈ a.entries then
        match a.xmlOf experimentXmlPath with
        | none => none
        | some root0 => some (assemble a root0)
      else none

/-! ## Spec-modelled components

The specification describes a Well-Position Codec, a Tab-Table Extractor
and a Container Dispatcher branch for the analysis-table layout that are
not present in src/eds_parser.py (the file under src/ only implements the
XML strategy).  These are modelled from the wording of the specification,
sections 4.1, 4.5 and 4.7; the label rendering reuses wellLabel, which is
in the source. -/

/-- Modelled from the spec: toPosition of the Well-Position Codec (spec
4.1), missing from src/eds_parser.py.  row = index div 12, column =
index mod 12, rendered with the label builder of the source. -/
def toPosition (i : Nat) : String :=
  wellLabel (i / 12) (i % 12)

/-- Modelled from the spec: the numeric-series parse of the Tab-Table
Extractor (spec 4.5 step 6), missing from src/eds_parser.py: split on
tab, drop the leading label field, parse the remaining fields as floats,
silently discarding any field that fails to parse. -/
def parseSeries (line : String) : List ℚ :=
  match strSplit '\t' line with
  | [] => []
  | _ :: rest => rest.filterMap pyFloat

/-- Modelled from the spec: header-line recognition and field extraction
of the Tab-Table Extractor (spec 4.5 steps 1-3), missing from
src/eds_parser.py.  A line is a well header iff its first tab field,
after trimming, consists entirely of digits; the second tab field is the
sample name, defaulting to "Unknown" when absent; the last tab field,
split on comma, has its first segment parsed as the Tm float. -/
def tabHeader (line : String) : Option (Nat × String × Option ℚ) :=
  match strSplit '\t' line with
  | [] => none
  | f0 :: rest =>
      if isDigits (pyStrip f0) then
        let name := match rest with
          | n :: _ => n
          | [] => "Unknown"
        let tm := match (f0 :: rest).getLast? with
          | some tf =>
              match strSplit ',' tf with
              | seg :: _ => pyFloat seg
              | [] => none
          | none => none
        some (digitsToNat (pyStrip f0), name, tm)
      else none

/-- State threaded through the tab-table scan. -/
structure TabState where
  samples : List (String × Sample)
  wells : List (String × Well)
  curves : List MeltCurve
deriving Repr, DecidableEq

/-- Modelled from the spec: the action of the Tab-Table Extractor on one
line given the two lookahead lines (spec 4.5 steps 1-6), missing from
src/eds_parser.py.  On a header match the well and sample are registered;
a melt curve is emitted only when the next line contains the literal
marker "Sample Temperatures", the line after contains "Rn values", and
both parsed series are non-empty. -/
def tabStep (st : TabState) (line : String) (next1 next2 : Option String) :
    TabState :=
  match tabHeader line with
  | none => st
  | some (idx, name, tm) =>
      let pos := toPosition idx
      let samples := alInsert st.samples name ⟨name, none⟩
      let wells := alInsert st.wells pos
        { well_position := pos
          sample_name := some name
          tm_value := tm
          target_dye := "SYBR"
          sample_role := "Unknown" }
      let curves :=
        match next1, next2 with
        | some l1, some l2 =>
            if strContainsSub l1 "Sample Temperatures" &&
                strContainsSub l2 "Rn values" then
              let temps := parseSeries l1
              let rns := parseSeries l2
              if temps ≠ [] ∧ rns ≠ [] then
                st.curves ++
                  [{ well_position := pos
                     sample_name := some name
                     temperature_data := temps
                     fluorescence_data := rns }]
              else st.curves
            else st.curves
        | _, _ => st.curves
      { samples := samples, wells := wells, curves := curves }

/-- Modelled from the spec: the line scan of the Tab-Table Extractor
(spec 4.5), missing from src/eds_parser.py: lines are scanned in order,
non-header lines are ignored, and each header consults a two-line
lookahead. -/
def tabScan : TabState → List String → TabState
  | st, [] => st
  | st, l :: rest => tabScan (tabStep st l rest.head? (rest.drop 1).head?) rest

/-- Modelled from the spec: the Tab-Table Extractor applied to the lines
of the analysis-table entry, missing from src/eds_parser.py. -/
def tabExtract (ls : List String) : TabState :=
  tabScan ⟨[], [], []⟩ ls

/-- Modelled from the spec: the fixed analysis-table entry path of the
Container Dispatcher (spec 4.7), missing from src/eds_parser.py; the
spec fixes its existence but not its literal spelling, and no claim
depends on the spelling. -/
def analysisTablePath : String := "apldbio/sds/analysis_result.txt"

/-- Modelled from the spec: the all-"Unknown" metadata record the
dispatcher falls back to when the metadata XML entry is absent (spec
4.7), missing from src/eds_parser.py. -/
def allUnknownMetadata : Metadata :=
  { run_name := "Unknown"
    instrument_serial := some "Unknown"
    run_start_time := some "Unknown" }

/-- A container as seen by the spec-modelled dispatcher: entry names,
XML-parse outcome per entry, and decoded text lines per entry. -/
structure SpecContainer where
  entries : List String
  xmlOf : String → Option Xml
  linesOf : String → List String

/-- Modelled from the spec: the metadata step of the dispatcher, shared
by both routes (spec section 2 control flow), falling back to the
all-"Unknown" record when the metadata XML entry is absent. -/
def specMetadataOf (a : SpecContainer) : Metadata :=
  if experimentXmlPath ∈ a.entries then
    match a.xmlOf experimentXmlPath with
    | some root0 => extract_metadata (stripNs root0)
    | none => allUnknownMetadata
  else allUnknownMetadata

/-- Modelled from the spec: the Container Dispatcher (spec 4.7), whose
analysis-table branch is missing from src/eds_parser.py.  The
analysis-table path takes precedence and routes to the Tab-Table
Extractor; otherwise the XML strategy of the source runs, with metadata
falling back to the all-"Unknown" record when the metadata XML entry is
absent; with neither entry present the parse fails. -/
def specDispatch (a : SpecContainer) : Option ParseResult :=
  let md : Metadata := specMetadataOf a
  if analysisTablePath ∈ a.entries then
    let st := tabExtract (a.linesOf analysisTablePath)
    some { metadata := md, samples := st.samples, wells := st.wells,
           melt_curves := st.curves }
  else if experimentXmlPath ∈ a.entries then
    match a.xmlOf experimentXmlPath with
    | some root0 =>
        let root := stripNs root0
        let ss := extract_samples root
        let ws := extract_wells root ss
        some { metadata := md, samples := ss, wells := ws,
               melt_curves := extract_melt_curves a.entries ws }
    | none => none
  else none

/-! ## Concrete instances used by witnesses and counterexamples -/

/-- The three-line tab-table input of spec section 8. -/
def demoLines : List String :=
  ["0\tSampleX\t49.141586,73.766335",
   "Sample Temperatures\t60.0\t61.0",
   "Rn values\t0.1\t0.2"]

/-- A container holding only the analysis-table entry, with the
three-line demo table as its text. -/
def demoTabContainer : SpecContainer :=
  ⟨[analysisTablePath], fun _ => none, fun _ => demoLines⟩

/-- A structurally valid archive with no experiment XML entry. -/
def noXmlArchive : ZipArchive :=
  ⟨["apldbio/sds/analysis_result.txt"], fun _ => none⟩

/-- A Sample element with an empty ID attribute and a Name child. -/
def emptyIdSample : Xml :=
  .elem "Sample" [("ID", "")] none [.elem "Name" [] (some "x") []]

/-- Two Sample elements with distinct IDs and the same name, and two Well
elements that reference them, assembled under one plate root. -/
def twinWellA : Xml :=
  .elem "Well" [] none
    [.elem "Row" [] (some "0") [], .elem "Col" [] (some "0") [],
     .elem "SampleRef" [("ID", "1")] none []]

def twinWellB : Xml :=
  .elem "Well" [] none
    [.elem "Row" [] (some "0") [], .elem "Col" [] (some "1") [],
     .elem "SampleRef" [("ID", "2")] none []]

def twinPlate : Xml :=
  .elem "Plate" [] none
    [.elem "Sample" [("ID", "1")] none [.elem "Name" [] (some "S") []],
     .elem "Sample" [("ID", "2")] none [.elem "Name" [] (some "S") []],
     twinWellA, twinWellB]

/-- An element whose tag holds two closing braces, as produced by
ElementTree for a namespace URI that itself contains a closing brace
(xmlns="u}a" gives the tag of a b element inside it as this value). -/
def doubleBraceElem : Xml :=
  .elem "\x7bu\x7da\x7db" [] none []

/-- A namespaced tree with at most one separator per tag. -/
def singleBraceTree : Xml :=
  .elem "{u}Experiment" [] none
    [.elem "{u}Name" [] (some "Run1") [], .elem "Plain" [] none []]

/-- A small complete experiment tree: run name, one sample, one well. -/
def demoRoot : Xml :=
  .elem "Experiment" [] none
    [.elem "Name" [] (some "Run1") [],
     .elem "Sample" [("ID", "1")] none [.elem "Name" [] (some "S") []],
     .elem "Well" [] none
       [.elem "Row" [] (some "0") [], .elem "Col" [] (some "0") [],
        .elem "SampleRef" [("ID", "1")] none []]]

/-- A valid archive whose experiment XML entry parses to demoRoot. -/
def demoArchive : ZipArchive :=
  ⟨[experimentXmlPath], fun _ => some demoRoot⟩

/-! ## Helper lemmas -/

theorem alLookup_cons {α : Type} (q : String × α) (rest : List (String × α))
    (k : String) :
    alLookup (q :: rest) k = if q.1 = k then some q.2 else alLookup rest k := by
  rfl

theorem alInsert_cons {α : Type} (q : String × α) (rest : List (String × α))
    (k : String) (v : α) :
    alInsert (q :: rest) k v =
      if q.1 = k then (k, v) :: rest else q :: alInsert rest k v := by
  rfl

theorem alLookup_insert_isSome {α : Type} (m : List (String × α)) (k k2 : String)
    (v : α) :
    (alLookup (alInsert m k v) k2).isSome = true ↔
      k2 = k ∨ (alLookup m k2).isSome = true := by
  induction m with
  | nil =>
      by_cases h : k = k2 <;>
        simp [alInsert, alLookup_cons, alLookup, h, eq_comm]
  | cons p rest ih =>
      by_cases h : p.1 = k
      · subst h
        rw [alInsert_cons, if_pos rfl, alLookup_cons, alLookup_cons]
        by_cases h2 : p.1 = k2
        · rw [if_pos h2, if_pos h2]
          simp [h2]
        · have h2a : ¬ k2 = p.1 := fun e => h2 e.symm
          rw [if_neg h2, if_neg h2]
          simp [h2a]
      · rw [alInsert_cons, if_neg h]
        by_cases h2 : p.1 = k2
        · have : ¬ k2 = k := fun e => h (h2.trans e)
          simp [alLookup_cons, h2, this]
        · simp [alLookup_cons, h2, ih]

theorem alLookup_alInsert {α : Type} (m : List (String × α)) (k k2 : String)
    (v : α) :
    alLookup (alInsert m k v) k2 = if k2 = k then some v else alLookup m k2 := by
  induction m with
  | nil =>
      show (if k = k2 then some v else alLookup [] k2) = _
      by_cases h : k2 = k
      · rw [if_pos h.symm, if_pos h]
      · rw [if_neg (fun e : k = k2 => h e.symm), if_neg h]
  | cons p rest ih =>
      rw [alInsert_cons]
      by_cases h : p.1 = k
      · rw [if_pos h, alLookup_cons, alLookup_cons]
        by_cases h2 : k2 = k
        · rw [if_pos (show (k, v).1 = k2 from h2.symm), if_pos h2]
        · rw [if_neg (show ¬ (k, v).1 = k2 from fun e => h2 e.symm),
            if_neg h2,
            if_neg (show ¬ p.1 = k2 from fun e => h2 (h.symm.trans e).symm)]
      · rw [if_neg h, alLookup_cons, alLookup_cons, ih]
        by_cases h2 : k2 = k
        · rw [if_pos h2, if_pos h2,
            if_neg (show ¬ p.1 = k2 from fun e => h (e.trans h2))]
        · rw [if_neg h2, if_neg h2]

theorem buildSamples_drop (s : Xml) (hs : sampleEntry s = none) :
    ∀ (l1 l2 : List Xml) (m : List (String × Sample)),
      buildSamples (l1 ++ s :: l2) m = buildSamples (l1 ++ l2) m := by
  intro l1
  induction l1 with
  | nil => intro l2 m; simp [buildSamples, hs]
  | cons e rest ih => intro l2 m; simp [buildSamples, ih]

theorem buildSamples_lookup_some (l : List Xml) :
    ∀ (m : List (String × Sample)) (k : String) (v : Sample),
      alLookup (buildSamples l m) k = some v →
        (∃ s ∈ l, sampleEntry s = some (k, v)) ∨ alLookup m k = some v := by
  induction l with
  | nil => intro m k v h; exact Or.inr h
  | cons s rest ih =>
      intro m k v h
      rw [show buildSamples (s :: rest) m =
        buildSamples rest (match sampleEntry s with
          | some (k2, v2) => alInsert m k2 v2
          | none => m) from rfl] at h
      rcases ih _ k v h with hrest | hacc
      · obtain ⟨e, he, hev⟩ := hrest
        exact Or.inl ⟨e, List.mem_cons_of_mem s he, hev⟩
      · match hse : sampleEntry s with
        | none => rw [hse] at hacc; exact Or.inr hacc
        | some (k2, v2) =>
            rw [hse, alLookup_alInsert] at hacc
            by_cases hk : k = k2
            · subst hk
              rw [if_pos rfl] at hacc
              cases hacc
              exact Or.inl ⟨s, List.mem_cons_self s rest, hse⟩
            · rw [if_neg hk] at hacc
              exact Or.inr hacc

theorem buildWells_drop (m : List (String × Sample)) (e : Xml)
    (he : wellEntry m e = none) :
    ∀ (l1 l2 : List Xml) (acc : List (String × Well)),
      buildWells m (l1 ++ e :: l2) acc = buildWells m (l1 ++ l2) acc := by
  intro l1
  induction l1 with
  | nil => intro l2 acc; simp [buildWells, he]
  | cons e2 rest ih => intro l2 acc; simp [buildWells, ih]

theorem buildWells_lookup_some (m : List (String × Sample)) (l : List Xml) :
    ∀ (acc : List (String × Well)) (p : String) (w : Well),
      alLookup (buildWells m l acc) p = some w →
        (∃ e ∈ l, wellEntry m e = some (p, w)) ∨ alLookup acc p = some w := by
  induction l with
  | nil => intro acc p w h; exact Or.inr h
  | cons e rest ih =>
      intro acc p w h
      rw [show buildWells m (e :: rest) acc =
        buildWells m rest (match wellEntry m e with
          | some (k2, v2) => alInsert acc k2 v2
          | none => acc) from rfl] at h
      rcases ih _ p w h with hrest | hacc
      · obtain ⟨e2, he2, hev⟩ := hrest
        exact Or.inl ⟨e2, List.mem_cons_of_mem e he2, hev⟩
      · match hwe : wellEntry m e with
        | none => rw [hwe] at hacc; exact Or.inr hacc
        | some (k2, v2) =>
            rw [hwe, alLookup_alInsert] at hacc
            by_cases hk : p = k2
            · subst hk
              rw [if_pos rfl] at hacc
              cases hacc
              exact Or.inl ⟨e, List.mem_cons_self e rest, hwe⟩
            · rw [if_neg hk] at hacc
              exact Or.inr hacc

theorem parse_eq_some_iff (z : ZipFile) (r : ParseResult) :
    parse z = some r ↔
      ∃ a root0, z = ZipFile.ok a ∧ experimentXmlPath ∈ a.entries ∧
        a.xmlOf experimentXmlPath = some root0 ∧ r = assemble a root0 := by
  constructor
  · intro h
    match z with
    | .badZip => exact absurd h (by simp [parse])
    | .ok a =>
        by_cases hm : experimentXmlPath ∈ a.entries
        · match hx : a.xmlOf experimentXmlPath with
          | none => rw [parse, if_pos hm, hx] at h; exact absurd h (by simp)
          | some root0 =>
              rw [parse, if_pos hm, hx] at h
              exact ⟨a, root0, rfl, hm, hx, (Option.some_inj.mp h).symm⟩
        · rw [parse, if_neg hm] at h; exact absurd h (by simp)
  · rintro ⟨a, root0, rfl, hm, hx, rfl⟩
    rw [parse, if_pos hm, hx]

theorem extract_wells_lookup (root : Xml) (m : List (String × Sample))
    (p : String) (w : Well) (h : alLookup (extract_wells root m) p = some w) :
    ∃ e ∈ findallDesc root "Well", wellEntry m e = some (p, w) := by
  rcases buildWells_lookup_some m (findallDesc root "Well") [] p w h with
    hfound | habs
  · exact hfound
  · exact absurd habs (by simp [alLookup])

theorem extract_samples_lookup (root : Xml) (k : String) (v : Sample)
    (h : alLookup (extract_samples root) k = some v) :
    ∃ s ∈ findallDesc root "Sample", sampleEntry s = some (k, v) := by
  rcases buildSamples_lookup_some (findallDesc root "Sample") [] k v h with
    hfound | habs
  · exact hfound
  · exact absurd habs (by simp [alLookup])

theorem wellEntry_some_fields (m : List (String × Sample)) (e : Xml)
    (p : String) (w : Well) (h : wellEntry m e = some (p, w)) :
    w.well_position = p ∧ w.target_dye = "SYBR" ∧ w.sample_role = "Unknown" := by
  unfold wellEntry at h
  split at h
  · split at h
    · exact absurd h (by simp)
    · cases h
      exact ⟨rfl, rfl, rfl⟩
  · exact absurd h (by simp)

theorem sampleEntry_some_inv (s : Xml) (k : String) (v : Sample)
    (h : sampleEntry s = some (k, v)) :
    Xml.attr s "ID" = some k ∧ k ≠ "" ∧
      findtextChild s "Name" = some v.name ∧ v.name ≠ "" ∧
      v.description = findtextChild s "Description" := by
  unfold sampleEntry at h
  cases hid : Xml.attr s "ID" with
  | none => rw [hid] at h; exact absurd h (by simp)
  | some i =>
      cases hn : findtextChild s "Name" with
      | none => rw [hid, hn] at h; exact absurd h (by simp)
      | some n =>
          rw [hid, hn] at h
          have h2 : (if i ≠ "" ∧ n ≠ "" then
              some (i, (⟨n, findtextChild s "Description"⟩ : Sample))
            else none) = some (k, v) := h
          by_cases hcond : i ≠ "" ∧ n ≠ ""
          · rw [if_pos hcond] at h2
            cases h2
            exact ⟨rfl, hcond.1, rfl, hcond.2, rfl⟩
          · rw [if_neg hcond] at h2
            exact absurd h2 (by simp)

theorem sampleEntry_eq_some (s : Xml) (i n : String)
    (hid : Xml.attr s "ID" = some i) (hi : i ≠ "")
    (hn : findtextChild s "Name" = some n) (hne : n ≠ "") :
    sampleEntry s = some (i, ⟨n, findtextChild s "Description"⟩) := by
  unfold sampleEntry
  rw [hid, hn]
  show (if i ≠ "" ∧ n ≠ "" then
      some (i, (⟨n, findtextChild s "Description"⟩ : Sample))
    else none) = _
  rw [if_pos ⟨hi, hne⟩]

theorem buildSamples_lookup_isSome (l : List Xml) :
    ∀ (m : List (String × Sample)) (k : String),
      (alLookup (buildSamples l m) k).isSome = true ↔
        (∃ s ∈ l, ∃ v : Sample, sampleEntry s = some (k, v)) ∨
          (alLookup m k).isSome = true := by
  induction l with
  | nil => intro m k; simp [buildSamples]
  | cons s rest ih =>
      intro m k
      rw [show buildSamples (s :: rest) m =
        buildSamples rest (match sampleEntry s with
          | some (k2, v2) => alInsert m k2 v2
          | none => m) from rfl, ih]
      match hse : sampleEntry s with
      | none =>
          simp only [List.mem_cons]
          constructor
          · rintro (⟨e, he, hv⟩ | hm)
            · exact Or.inl ⟨e, Or.inr he, hv⟩
            · exact Or.inr hm
          · rintro (⟨e, (rfl | he), v, hv⟩ | hm)
            · rw [hse] at hv; cases hv
            · exact Or.inl ⟨e, he, v, hv⟩
            · exact Or.inr hm
      | some (k2, v2) =>
          rw [show (alLookup (alInsert m k2 v2) k).isSome = true ↔
            (k = k2 ∨ (alLookup m k).isSome = true) from
            alLookup_insert_isSome m k2 k v2]
          simp only [List.mem_cons]
          constructor
          · rintro (⟨e, he, hv⟩ | hk | hm)
            · exact Or.inl ⟨e, Or.inr he, hv⟩
            · exact Or.inl ⟨s, Or.inl rfl, v2, by rw [hse, hk]⟩
            · exact Or.inr hm
          · rintro (⟨e, (rfl | he), v, hv⟩ | hm)
            · rw [hse] at hv
              cases hv
              exact Or.inr (Or.inl rfl)
            · exact Or.inl ⟨e, he, v, hv⟩
            · exact Or.inr (Or.inr hm)

theorem resolveSampleName_via_ref (m : List (String × Sample)) (w : Xml)
    (i : String) (s : Sample)
    (href : (findDesc w "SampleRef").bind (fun r => Xml.attr r "ID") = some i)
    (hs : alLookup m i = some s) (hne : s.name ≠ "") :
    resolveSampleName m w = some s.name := by
  unfold resolveSampleName
  cases hr : findDesc w "SampleRef" with
  | none => rw [hr] at href; cases href
  | some ref =>
      rw [hr] at href
      simp only [Option.some_bind] at href
      dsimp only
      rw [href]
      dsimp only
      rw [hs]
      show (if s.name = "" then findtextChild w "SampleName"
        else some s.name) = some s.name
      rw [if_neg hne]

end Eds

namespace Eds

theorem Xml.myInduct (P : Xml → Prop)
    (h : ∀ t a x cs, (∀ c ∈ cs, P c) → P (Xml.elem t a x cs)) :
    ∀ e : Xml, P e
  | .elem t a x cs => by
    refine h t a x cs (fun c hc => ?_)
    have : sizeOf c < sizeOf cs := List.sizeOf_lt_of_mem hc
    exact Xml.myInduct P h c
termination_by e => sizeOf e
decreasing_by
  simp only [Xml.elem.sizeOf_spec]
  omega

theorem stripNsList_eq_map (cs : List Xml) : stripNsList cs = cs.map stripNs := by
  induction cs with
  | nil => rfl
  | cons c rest ih => rw [stripNsList, ih, List.map_cons]

theorem tag_stripNs (x : Xml) : (stripNs x).tag = stripTag x.tag := by
  cases x
  rfl

theorem afterBrace_no_brace (cs : List Char) (h : cs.count '}' ≤ 1) :
    (afterBrace cs).contains '}' = false := by
  induction cs with
  | nil => rfl
  | cons c rest ih =>
      by_cases hc : c = '}'
      · subst hc
        have hcount : rest.count '}' = 0 := by
          have := List.count_cons_self '}' rest
          omega
        have hmem : '}' ∉ rest := by
          rw [← List.count_eq_zero]
          exact hcount
        have hstep : afterBrace ('}' :: rest) = rest := by
          rw [afterBrace, List.dropWhile_cons]
          simp
        rw [hstep, ← Bool.not_eq_true]
        intro hcontains
        exact hmem (List.elem_iff.mp hcontains)
      · have hcount : rest.count '}' ≤ 1 := by
          have := List.count_cons '}' c rest
          rw [this] at h
          omega
        have hstep : afterBrace (c :: rest) = afterBrace rest := by
          rw [afterBrace, afterBrace, List.dropWhile_cons]
          simp [hc]
        rw [hstep]
        exact ih hcount

theorem stripTag_no_brace (t : String) (h : t.data.count '}' ≤ 1) :
    (stripTag t).data.contains '}' = false := by
  unfold stripTag
  by_cases hc : t.data.contains '}'
  · rw [if_pos hc]
    exact afterBrace_no_brace t.data h
  · rw [if_neg hc]
    exact Bool.not_eq_true _ ▸ hc

theorem stripTag_id (t : String) (h : t.data.contains '}' = false) :
    stripTag t = t := by
  unfold stripTag
  rw [if_neg (by rw [h]; exact Bool.false_ne_true)]

theorem mem_descendantsList_self (cs : List Xml) (c : Xml) (hc : c ∈ cs) :
    c ∈ descendantsList cs := by
  induction cs with
  | nil => cases hc
  | cons e rest ih =>
      rw [descendantsList]
      rcases List.mem_cons.mp hc with rfl | hc2
      · exact List.mem_cons_self _ _
      · exact List.mem_cons_of_mem _ (List.mem_append_right _ (ih hc2))

theorem mem_descendantsList_of_desc (cs : List Xml) (c d : Xml) (hc : c ∈ cs)
    (hd : d ∈ c.descendants) : d ∈ descendantsList cs := by
  induction cs with
  | nil => cases hc
  | cons e rest ih =>
      rw [descendantsList]
      rcases List.mem_cons.mp hc with rfl | hc2
      · exact List.mem_cons_of_mem _ (List.mem_append_left _ hd)
      · exact List.mem_cons_of_mem _ (List.mem_append_right _ (ih hc2))

theorem allTags_sub (tg : String) (a : List (String × String))
    (tx : Option String) (cs : List Xml) (c : Xml) (hc : c ∈ cs) :
    ∀ t ∈ allTags c, t ∈ allTags (Xml.elem tg a tx cs) := by
  intro t ht
  rw [allTags] at ht ⊢
  show t ∈ tg :: (descendantsList cs).map Xml.tag
  rcases List.mem_cons.mp ht with rfl | ht2
  · exact List.mem_cons_of_mem _
      (List.mem_map_of_mem Xml.tag (mem_descendantsList_self cs c hc))
  · obtain ⟨d, hd, rfl⟩ := List.mem_map.mp ht2
    exact List.mem_cons_of_mem _
      (List.mem_map_of_mem Xml.tag (mem_descendantsList_of_desc cs c d hc hd))

theorem descendants_stripNs (x : Xml) :
    (stripNs x).descendants = x.descendants.map stripNs := by
  induction x using Xml.myInduct with
  | h tg a tx cs ih =>
      rw [stripNs, Xml.descendants, Xml.descendants, stripNsList_eq_map]
      clear tg a tx
      induction cs with
      | nil => rfl
      | cons c rest ihl =>
          rw [List.map_cons, descendantsList, descendantsList]
          rw [show (c :: c.descendants ++ descendantsList rest).map stripNs =
            stripNs c :: (c.descendants.map stripNs ++
              (descendantsList rest).map stripNs) by
            simp]
          rw [ih c (List.mem_cons_self c rest)]
          rw [ihl (fun d hd => ih d (List.mem_cons_of_mem c hd))]
          rfl

theorem allTags_stripNs (x : Xml) :
    allTags (stripNs x) = (allTags x).map stripTag := by
  rw [allTags, allTags, List.map_cons, tag_stripNs, descendants_stripNs,
    List.map_map, List.map_map]
  have : Xml.tag ∘ stripNs = stripTag ∘ Xml.tag := by
    funext c
    exact tag_stripNs c
  rw [this]

theorem stripNs_id (x : Xml) (h : ∀ t ∈ allTags x, t.data.contains '}' = false) :
    stripNs x = x := by
  induction x using Xml.myInduct with
  | h tg a tx cs ih =>
      rw [stripNs, stripNsList_eq_map]
      have htag : stripTag tg = tg :=
        stripTag_id tg (h tg (by rw [allTags]; exact List.mem_cons_self _ _))
      have hcs : cs.map stripNs = cs := by
        rw [show cs.map stripNs = cs.map stripNs from rfl]
        have : ∀ c ∈ cs, stripNs c = c := fun c hc =>
          ih c hc (fun t ht => h t (allTags_sub tg a tx cs c hc t ht))
        calc cs.map stripNs = cs.map id := List.map_congr_left this
        _ = cs := List.map_id cs
      rw [htag, hcs]

/-! ## Claim theorems -/

/-- Claim C1: parse never lets an exception escape.  A BadZipFile (the
input is not a valid zip archive) yields None; a structurally valid
archive without the experiment XML entry yields None; an entry on which
ET.parse raises yields None through the top-level handler; and for every
input the returned value is either None or the complete assembled record
(metadata, samples, wells and melt curves all populated by their
extractors), never a partial record. -/
theorem parse_no_exception_escape :
    parse ZipFile.badZip = none ∧
    (∀ a : ZipArchive, experimentXmlPath ∈ a.entries →
      a.xmlOf experimentXmlPath = none → parse (ZipFile.ok a) = none) ∧
    (∀ z : ZipFile, parse z = none ∨
      ∃ a root0, z = ZipFile.ok a ∧ experimentXmlPath ∈ a.entries ∧
        a.xmlOf experimentXmlPath = some root0 ∧
        parse z = some (assemble a root0)) := by
  refine ⟨rfl, fun a hm hx => by rw [parse, if_pos hm, hx], fun z => ?_⟩
  match hz : parse z with
  | none => exact Or.inl rfl
  | some r =>
      obtain ⟨a, root0, rfl, hm, hx, rfl⟩ := (parse_eq_some_iff z r).mp hz
      exact Or.inr ⟨a, root0, rfl, hm, hx, rfl⟩

/-- Witness for C1: a concrete valid archive holding an experiment XML
entry that fails to parse is mapped to None. -/
theorem parse_no_exception_escape_witness :
    parse (ZipFile.ok ⟨[experimentXmlPath], fun _ => none⟩) = none :=
  parse_no_exception_escape.2.1 ⟨[experimentXmlPath], fun _ => none⟩
    (by decide) rfl

set_option maxRecDepth 8000 in
/-- Claim C6: the well-position encoding row = i div 12, col = i mod 12,
label = chr(65 + row) followed by the 1-based column zero-padded to two
digits, yields for every i < 96 a letter in A-H and a column 01-12, is
injective on 0..95, and maps 0, 11, 12, 95 to "A01", "A12", "B01",
"H12". -/
theorem toPosition_spec :
    (∀ i : Nat, i < 96 →
      (toPosition i).data.head?.getD 'Z' ∈ "ABCDEFGH".data ∧
      String.mk ((toPosition i).data.drop 1) ∈
        ["01", "02", "03", "04", "05", "06",
         "07", "08", "09", "10", "11", "12"]) ∧
    (∀ i : Nat, i < 96 → ∀ j : Nat, j < 96 →
      toPosition i = toPosition j → i = j) ∧
    toPosition 0 = "A01" ∧ toPosition 11 = "A12" ∧
    toPosition 12 = "B01" ∧ toPosition 95 = "H12" := by decide

/-- Witness for C6: the bounds and the injectivity implication applied at
concrete indices. -/
theorem toPosition_spec_witness :
    ((toPosition 5).data.head?.getD 'Z' ∈ "ABCDEFGH".data ∧
      String.mk ((toPosition 5).data.drop 1) ∈
        ["01", "02", "03", "04", "05", "06",
         "07", "08", "09", "10", "11", "12"]) ∧ (13 : Nat) = 13 :=
  ⟨toPosition_spec.1 5 (by decide),
   toPosition_spec.2.1 13 (by decide) 13 (by decide) rfl⟩

/-- Claim C5: when proprietary binary quant entries are present in the
archive the melt-curve resolver does not fail and does not decode them:
it emits exactly one placeholder MeltCurve per well of the well mapping,
in order, carrying the well position and sample name and empty
temperature and fluorescence arrays. -/
theorem melt_curves_placeholders (entries : List String)
    (wm : List (String × Well)) (_hq : hasQuantFiles entries = true) :
    (extract_melt_curves entries wm).length = wm.length ∧
    ∀ i : Nat, ∀ pw : String × Well, wm[i]? = some pw →
      (extract_melt_curves entries wm)[i]? =
        some ⟨pw.1, pw.2.sample_name, [], []⟩ := by
  refine ⟨by simp [extract_melt_curves], fun i pw hpw => ?_⟩
  simp [extract_melt_curves, hpw]

/-- Witness for C5: a concrete archive with one quant binary entry and
one well receives one placeholder curve. -/
theorem melt_curves_placeholders_witness :
    hasQuantFiles ["apldbio/sds/quant/a.bin"] = true ∧
    (extract_melt_curves ["apldbio/sds/quant/a.bin"]
      [("A01", ⟨"A01", some "S", none, "SYBR", "Unknown"⟩)]).length = 1 := by
  refine ⟨by decide, ?_⟩
  rw [(melt_curves_placeholders ["apldbio/sds/quant/a.bin"]
    [("A01", ⟨"A01", some "S", none, "SYBR", "Unknown"⟩)] (by decide)).1]
  decide

/-- Claim C10: every well entry of any successful parse carries the fixed
defaults target_dye = "SYBR" and sample_role = "Unknown", for every input
container. -/
theorem wells_fixed_defaults (z : ZipFile) (r : ParseResult)
    (hzr : parse z = some r) (p : String) (w : Well)
    (hw : alLookup r.wells p = some w) :
    w.target_dye = "SYBR" ∧ w.sample_role = "Unknown" := by
  obtain ⟨a, root0, rfl, hm, hx, rfl⟩ := (parse_eq_some_iff z r).mp hzr
  obtain ⟨e, _, hentry⟩ := extract_wells_lookup _ _ p w hw
  exact (wellEntry_some_fields _ _ _ _ hentry).2

/-- Witness for C10: the demo archive parses successfully and its single
well "A01" carries the two fixed defaults. -/
theorem wells_fixed_defaults_witness :
    (Well.mk "A01" (some "S") none "SYBR" "Unknown").target_dye = "SYBR" ∧
    (Well.mk "A01" (some "S") none "SYBR" "Unknown").sample_role = "Unknown" :=
  wells_fixed_defaults (ZipFile.ok demoArchive) (assemble demoArchive demoRoot)
    (by decide) "A01" ⟨"A01", some "S", none, "SYBR", "Unknown"⟩ (by decide)

/-- Claim C9: a Well element contributes an entry to the wells mapping
only if its Row and Col children both parse as non-negative integers
(first conjunct), and a well with a missing child, an unparseable value
or a negative value is dropped without an error and without affecting
the other wells (second conjunct: its entry is none and removing it from
the scanned element list leaves the loop result unchanged). -/
theorem wells_require_valid_row_col :
    (∀ (root : Xml) (m : List (String × Sample)) (p : String) (w : Well),
      alLookup (extract_wells root m) p = some w →
        ∃ e ∈ findallDesc root "Well", ∃ row col : Int,
          pyInt (findtextChildD e "Row" "-1") = some row ∧
          pyInt (findtextChildD e "Col" "-1") = some col ∧
          0 ≤ row ∧ 0 ≤ col ∧ p = wellLabel row.toNat col.toNat) ∧
    (∀ (m : List (String × Sample)) (e : Xml),
      (findChild e "Row" = none ∨ findChild e "Col" = none ∨
        pyInt (findtextChildD e "Row" "-1") = none ∨
        pyInt (findtextChildD e "Col" "-1") = none ∨
        (∃ row : Int, pyInt (findtextChildD e "Row" "-1") = some row ∧ row < 0) ∨
        (∃ col : Int, pyInt (findtextChildD e "Col" "-1") = some col ∧ col < 0)) →
      wellEntry m e = none ∧
        ∀ (l1 l2 : List Xml) (acc : List (String × Well)),
          buildWells m (l1 ++ e :: l2) acc = buildWells m (l1 ++ l2) acc) := by
  constructor
  · intro root m p w h
    obtain ⟨e, he, hentry⟩ := extract_wells_lookup root m p w h
    refine ⟨e, he, ?_⟩
    unfold wellEntry at hentry
    cases hrow : pyInt (findtextChildD e "Row" "-1") with
    | none => rw [hrow] at hentry; exact absurd hentry (by simp)
    | some row =>
        cases hcol : pyInt (findtextChildD e "Col" "-1") with
        | none => rw [hrow, hcol] at hentry; exact absurd hentry (by simp)
        | some col =>
            simp only [hrow, hcol] at hentry
            by_cases hneg : row < 0 ∨ col < 0
            · rw [if_pos hneg] at hentry
              exact absurd hentry (by simp)
            · rw [if_neg hneg] at hentry
              push_neg at hneg
              refine ⟨row, col, rfl, rfl, hneg.1, hneg.2, ?_⟩
              cases hentry
              rfl
  · intro m e hbad
    have hnone : wellEntry m e = none := by
      unfold wellEntry
      rcases hbad with hb | hb | hb | hb | ⟨row, hb, hb2⟩ | ⟨col, hb, hb2⟩
      · rw [show findtextChildD e "Row" "-1" = "-1" by
          simp [findtextChildD, hb]]
        rw [show pyInt "-1" = some (-1) from rfl]
        cases hcol : pyInt (findtextChildD e "Col" "-1") <;> simp
      · rw [show findtextChildD e "Col" "-1" = "-1" by
          simp [findtextChildD, hb]]
        rw [show pyInt "-1" = some (-1) from rfl]
        cases hrow : pyInt (findtextChildD e "Row" "-1") <;> simp
      · rw [hb]
      · rw [hb]
        cases hrow : pyInt (findtextChildD e "Row" "-1") <;> simp
      · rw [hb]
        cases hcol : pyInt (findtextChildD e "Col" "-1") <;>
          simp [hb2, if_pos (Or.inl hb2)]
      · rw [hb]
        cases hrow : pyInt (findtextChildD e "Row" "-1") <;>
          simp [hb2, if_pos (Or.inr hb2)]
    exact ⟨hnone, fun l1 l2 acc => buildWells_drop m e hnone l1 l2 acc⟩

/-- Witness for C9: the acceptance direction applied to a concrete tree
with one valid well at row 0, column 0, and the drop direction applied
to a concrete Well element with a non-numeric Row child. -/
theorem wells_require_valid_row_col_witness :
    (∃ e ∈ findallDesc
        (Xml.elem "r" [] none
          [Xml.elem "Well" [] none
            [Xml.elem "Row" [] (some "0") [],
             Xml.elem "Col" [] (some "0") []]]) "Well",
      ∃ row col : Int,
        pyInt (findtextChildD e "Row" "-1") = some row ∧
        pyInt (findtextChildD e "Col" "-1") = some col ∧
        0 ≤ row ∧ 0 ≤ col ∧ "A01" = wellLabel row.toNat col.toNat) ∧
    wellEntry [] (Xml.elem "Well" [] none
      [Xml.elem "Row" [] (some "zzz") [],
       Xml.elem "Col" [] (some "0") []]) = none := by
  constructor
  · exact wells_require_valid_row_col.1
      (Xml.elem "r" [] none
        [Xml.elem "Well" [] none
          [Xml.elem "Row" [] (some "0") [],
           Xml.elem "Col" [] (some "0") []]]) [] "A01"
      ⟨"A01", none, none, "SYBR", "Unknown"⟩ (by decide)
  · exact (wells_require_valid_row_col.2 []
      (Xml.elem "Well" [] none
        [Xml.elem "Row" [] (some "zzz") [],
         Xml.elem "Col" [] (some "0") []])
      (Or.inr (Or.inr (Or.inl (by decide))))).1

/-- Counterexample to claim C4 as stated: the samples mapping is not
keyed by sample name.  In a concrete plate with two Sample elements of
distinct IDs "1" and "2" but the same name "S", the mapping holds two
distinct entries whose values share the name "S", looking the name "S"
up as a key fails, and the two wells that reference the shared name
through their SampleRef IDs resolve it through the two different
entries. -/
theorem samples_not_keyed_by_name :
    extract_samples twinPlate =
      [("1", ⟨"S", none⟩), ("2", ⟨"S", none⟩)] ∧
    alLookup (extract_samples twinPlate) "S" = none ∧
    (findDesc twinWellA "SampleRef").bind (fun r => Xml.attr r "ID") =
      some "1" ∧
    (findDesc twinWellB "SampleRef").bind (fun r => Xml.attr r "ID") =
      some "2" ∧
    resolveSampleName (extract_samples twinPlate) twinWellA = some "S" ∧
    resolveSampleName (extract_samples twinPlate) twinWellB = some "S" := by
  decide

/-- Claim C4 (amended): the samples mapping is keyed by the ID attribute,
not by name: every entry of the mapping stems from a Sample element
carrying that key as its ID attribute and the entry value holds its Name
child text, and any two wells whose SampleRef elements carry the same ID
attribute resolve to the single entry of that ID (and hence to the same
sample name), provided that entry's name is non-empty. -/
theorem samples_keyed_by_id :
    (∀ (root : Xml) (k : String) (v : Sample),
      alLookup (extract_samples root) k = some v →
        ∃ s ∈ findallDesc root "Sample",
          Xml.attr s "ID" = some k ∧ findtextChild s "Name" = some v.name) ∧
    (∀ (m : List (String × Sample)) (w1 w2 : Xml) (i : String) (s : Sample),
      (findDesc w1 "SampleRef").bind (fun r => Xml.attr r "ID") = some i →
      (findDesc w2 "SampleRef").bind (fun r => Xml.attr r "ID") = some i →
      alLookup m i = some s → s.name ≠ "" →
      resolveSampleName m w1 = some s.name ∧
      resolveSampleName m w2 = some s.name) := by
  constructor
  · intro root k v h
    obtain ⟨s, hs, hentry⟩ := extract_samples_lookup root k v h
    obtain ⟨hid, _, hn, _, _⟩ := sampleEntry_some_inv s k v hentry
    exact ⟨s, hs, hid, hn⟩
  · intro m w1 w2 i s h1 h2 hs hne
    exact ⟨resolveSampleName_via_ref m w1 i s h1 hs hne,
      resolveSampleName_via_ref m w2 i s h2 hs hne⟩

/-- Witness for the amended C4: applied to the concrete twin plate, entry
"1" stems from the first Sample element, and the two twin wells both
referencing ID "1" resolve to the same name. -/
theorem samples_keyed_by_id_witness :
    (∃ s ∈ findallDesc twinPlate "Sample",
      Xml.attr s "ID" = some "1" ∧ findtextChild s "Name" = some "S") ∧
    (resolveSampleName (extract_samples twinPlate) twinWellA = some "S" ∧
     resolveSampleName (extract_samples twinPlate) twinWellA = some "S") := by
  constructor
  · exact samples_keyed_by_id.1 twinPlate "1" ⟨"S", none⟩ (by decide)
  · exact samples_keyed_by_id.2 (extract_samples twinPlate) twinWellA
      twinWellA "1" ⟨"S", none⟩ (by decide) (by decide) (by decide) (by decide)

/-- Counterexample to claim C8 as stated: a Sample element that carries
an identifier attribute (with the empty string as its value, which is
falsy in Python) and a Name child is dropped, so carrying both is not
sufficient for contributing an entry. -/
theorem sample_with_empty_id_dropped :
    Xml.attr emptyIdSample "ID" = some "" ∧
    (findChild emptyIdSample "Name").isSome = true ∧
    findtextChild emptyIdSample "Name" = some "x" ∧
    extract_samples (Xml.elem "root" [] none [emptyIdSample]) = [] := by
  decide

/-- Claim C8 (amended): a Sample element contributes an entry to the
samples mapping if and only if it carries an identifier attribute with a
non-empty value and a Name child with non-empty text (Python truthiness
drops the empty string); a Sample element failing the condition is
silently dropped, contributing no entry and leaving the loop result over
the remaining elements unchanged. -/
theorem sample_acceptance_characterization :
    (∀ (root : Xml) (k : String),
      (alLookup (extract_samples root) k).isSome = true ↔
        ∃ s ∈ findallDesc root "Sample", ∃ n : String,
          Xml.attr s "ID" = some k ∧ k ≠ "" ∧
          findtextChild s "Name" = some n ∧ n ≠ "") ∧
    (∀ s : Xml, sampleEntry s = none →
      ∀ (l1 l2 : List Xml) (m : List (String × Sample)),
        buildSamples (l1 ++ s :: l2) m = buildSamples (l1 ++ l2) m) := by
  constructor
  · intro root k
    rw [extract_samples, buildSamples_lookup_isSome]
    simp only [alLookup, Option.isSome_none, Bool.false_eq_true, or_false]
    constructor
    · rintro ⟨s, hs, v, hv⟩
      obtain ⟨hid, hk, hn, hne, _⟩ := sampleEntry_some_inv s k v hv
      exact ⟨s, hs, v.name, hid, hk, hn, hne⟩
    · rintro ⟨s, hs, n, hid, hk, hn, hne⟩
      exact ⟨s, hs, ⟨n, findtextChild s "Description"⟩,
        sampleEntry_eq_some s k n hid hk hn hne⟩
  · intro s hs l1 l2 m
    exact buildSamples_drop s hs l1 l2 m

/-- Witness for the amended C8: in the concrete one-element tree whose
Sample has an empty ID, no key is present, and the element is dropped
from the loop without affecting the rest. -/
theorem sample_acceptance_characterization_witness :
    ((alLookup (extract_samples (Xml.elem "root" [] none [emptyIdSample]))
        "1").isSome = true ↔
      ∃ s ∈ findallDesc (Xml.elem "root" [] none [emptyIdSample]) "Sample",
        ∃ n : String, Xml.attr s "ID" = some "1" ∧ "1" ≠ "" ∧
          findtextChild s "Name" = some n ∧ n ≠ "") ∧
    buildSamples ([] ++ emptyIdSample :: []) [] = buildSamples ([] ++ []) [] := by
  constructor
  · exact sample_acceptance_characterization.1
      (Xml.elem "root" [] none [emptyIdSample]) "1"
  · exact sample_acceptance_characterization.2 emptyIdSample (by decide) [] [] []

/-- Counterexample to claim C7 as stated: the walker removes only the
part up to and including the first closing brace of each tag, so on an
element whose tag holds two closing braces (reachable from ET.parse when
a namespace URI itself contains a closing brace) one application leaves
a tag that still contains the separator, and a second application
changes the tree again: stripping twice differs from stripping once. -/
theorem strip_namespaces_not_idempotent :
    (stripNs doubleBraceElem).tag = "a\x7db" ∧
    ((stripNs doubleBraceElem).tag.data.contains '}') = true ∧
    (stripNs (stripNs doubleBraceElem)).tag = "b" ∧
    (((stripNs (stripNs doubleBraceElem)).tag ==
      (stripNs doubleBraceElem).tag) = false) := by
  decide

/-- Claim C7 (amended): on every tree in which each tag contains at most
one namespace separator (the shape ET.parse produces whenever namespace
URIs do not themselves contain a closing brace), one application of the
walker leaves no tag at any depth containing a separator, and applying
it a second time changes nothing. -/
theorem strip_namespaces_spec (x : Xml)
    (h : ∀ t ∈ allTags x, t.data.count '}' ≤ 1) :
    (∀ t ∈ allTags (stripNs x), t.data.contains '}' = false) ∧
    stripNs (stripNs x) = stripNs x := by
  have h1 : ∀ t ∈ allTags (stripNs x), t.data.contains '}' = false := by
    intro t ht
    rw [allTags_stripNs] at ht
    obtain ⟨t0, ht0, rfl⟩ := List.mem_map.mp ht
    exact stripTag_no_brace t0 (h t0 ht0)
  exact ⟨h1, stripNs_id (stripNs x) h1⟩

/-- Witness for the amended C7: a concrete namespaced tree with one
separator per tag is unchanged by a second application of the walker. -/
theorem strip_namespaces_spec_witness :
    stripNs (stripNs singleBraceTree) = stripNs singleBraceTree :=
  (strip_namespaces_spec singleBraceTree (by decide)).2

/-- Counterexample to claim C3 as stated: a structurally valid zip
archive whose entry list lacks the metadata XML entry is parsed to None,
not to a result record with all-"Unknown" metadata: the fallback the
claim describes does not exist in src/eds_parser.py, whose parse logs an
error and returns None in this case. -/
theorem parse_missing_metadata_returns_none :
    (noXmlArchive.entries.contains experimentXmlPath) = false ∧
    parse (ZipFile.ok noXmlArchive) = none := by
  decide

/-- Claim C3 (amended): for every structurally valid zip container in
which the metadata XML entry is absent, the parse fails and returns
None (there is no all-"Unknown" metadata fallback). -/
theorem parse_none_without_metadata_entry (a : ZipArchive)
    (h : experimentXmlPath ∉ a.entries) :
    parse (ZipFile.ok a) = none := by
  rw [parse, if_neg h]

/-- Witness for the amended C3: the concrete archive without the
experiment XML entry parses to None. -/
theorem parse_none_without_metadata_entry_witness :
    parse (ZipFile.ok noXmlArchive) = none :=
  parse_none_without_metadata_entry noXmlArchive (by decide)

set_option maxRecDepth 8000 in
/-- Claim C2 (modelled from the spec; the Tab-Table Extractor and the
analysis-table dispatcher branch are absent from src/eds_parser.py).  On
the three-line table whose header is "0", "SampleX",
"49.141586,73.766335" (tab-separated) followed by the Sample
Temperatures line 60.0, 61.0 and the Rn values line 0.1, 0.2, the
extraction yields exactly one MeltCurve, for well "A01" and sample
"SampleX", with temperature data [60, 61] and fluorescence data
[1/10, 1/5], the "A01" well carrying tm_value 49141586/1000000 =
49.141586 and the single sample "SampleX"; and whenever the
analysis-table entry is present the dispatcher routes to this tab-table
extraction. -/
theorem tab_table_extraction_example :
    ((tabExtract demoLines).curves =
      [⟨"A01", some "SampleX", [mkRat 60 1, mkRat 61 1],
        [mkRat 1 10, mkRat 2 10]⟩] ∧
     (tabExtract demoLines).wells =
      [("A01", ⟨"A01", some "SampleX", some (mkRat 49141586 1000000),
        "SYBR", "Unknown"⟩)] ∧
     (tabExtract demoLines).samples = [("SampleX", ⟨"SampleX", none⟩)]) ∧
    (∀ a : SpecContainer, analysisTablePath ∈ a.entries →
      specDispatch a = some
        { metadata := specMetadataOf a
          samples := (tabExtract (a.linesOf analysisTablePath)).samples
          wells := (tabExtract (a.linesOf analysisTablePath)).wells
          melt_curves := (tabExtract (a.linesOf analysisTablePath)).curves }) := by
  constructor
  · exact ⟨by decide, by decide, by decide⟩
  · intro a h
    rw [specDispatch]
    rw [if_pos h]

/-- Witness for C2: the dispatcher applied to the concrete container
holding only the analysis-table entry with the demo lines routes to the
tab-table extraction. -/
theorem tab_table_extraction_example_witness :
    specDispatch demoTabContainer = some
      { metadata := specMetadataOf demoTabContainer
        samples := (tabExtract demoLines).samples
        wells := (tabExtract demoLines).wells
        melt_curves := (tabExtract demoLines).curves } :=
  tab_table_extraction_example.2 demoTabContainer (by decide)

end Eds
